import Mathlib

/-!
Verification of the bid-history and rating ledger of the
freelancer-ai-dashboard repository (source: src/bid_history.py).

The SQLite tables are embedded shallowly:
* the `bids` table is a list of (id, record) pairs together with the next
  auto-increment id;
* the `prompt_versions` table is a list of records whose `version_key` is
  kept unique by `register_prompt_version` exactly as the UNIQUE constraint
  does in the source (INSERT, and UPDATE on an integrity error).

Timestamp columns (`created_at`, `updated_at`, `outcome_updated_at`) and the
purely descriptive project-metadata columns (url, description, budgets,
language, model_used, tone, milestone_plan) are not modelled: no claim
mentions them and no ledger logic reads them.  The JSON-encoded
`user_edits` column is modelled by its parsed form (an optional
original/final pair), matching the object the source serialises.
SQL statements `UPDATE ... WHERE k = ?` are modelled as a map over the rows
matching the key, and `fetchone` as `List.find?`.
-/

namespace BidHistory

/-- The edit diff stored in the `user_edits` column:
`json.dumps({"original": original, "final": final_text})`. -/
structure EditDiff where
  original : String
  final : String
deriving DecidableEq

/-- One row of the `bids` table (the columns the ledger logic reads). -/
structure Bid where
  project_title : String
  project_type : Option String := none
  bid_text : String
  prompt_version : String
  outcome : String := "pending"
  outcome_notes : Option String := none
  was_viewed : Bool := false
  was_engaged : Bool := false
  was_won : Bool := false
  was_high_rank : Bool := false
  user_edits : Option EditDiff := none
  final_bid_text : Option String := none
  feedback_notes : Option String := none
  rating : Int := 0
  is_uploaded : Bool := false
  upload_source : Option String := none
  upload_notes : Option String := none
deriving DecidableEq

/-- One row of the `prompt_versions` table. -/
structure PromptVersion where
  version_key : String
  name : String
  description : Option String := none
  is_active : Bool := false
  is_approved : Bool := false
  total_bids : Nat := 0
  won_bids : Nat := 0
  engaged_bids : Nat := 0
  viewed_bids : Nat := 0
  success_rate : ℚ := 0
deriving DecidableEq

/-- The whole database. -/
structure Store where
  bids : List (Nat × Bid) := []
  nextId : Nat := 1
  pvs : List PromptVersion := []
deriving DecidableEq

/-- The empty database, as created by `_ensure_tables`. -/
def emptyStore : Store := {}

/-- Model of `SELECT * FROM bids WHERE id = ?` (fetchone). -/
def getBid (s : Store) (bid_id : Nat) : Option Bid :=
  (s.bids.find? (fun p => p.1 == bid_id)).map (·.2)

/-- Model of `SELECT * FROM prompt_versions WHERE version_key = ?` (fetchone). -/
def getPV (s : Store) (key : String) : Option PromptVersion :=
  s.pvs.find? (fun pv => pv.version_key == key)

/-- Model of `UPDATE bids SET ... WHERE id = ?`: apply `f` to every row matching
the id (the primary key makes it at most one in the real table). -/
def mapBid (s : Store) (bid_id : Nat) (f : Bid → Bid) : Store :=
  { s with bids := s.bids.map (fun p => if p.1 == bid_id then (p.1, f p.2) else p) }

/-- The four counter columns `_increment_prompt_stat` is called with. -/
inductive StatName
  | total_bids
  | won_bids
  | engaged_bids
  | viewed_bids
deriving DecidableEq

/-- One-row effect of the SQL increment of a named counter column. -/
def bumpStat : StatName → PromptVersion → PromptVersion
  | .total_bids, pv => { pv with total_bids := pv.total_bids + 1 }
  | .won_bids, pv => { pv with won_bids := pv.won_bids + 1 }
  | .engaged_bids, pv => { pv with engaged_bids := pv.engaged_bids + 1 }
  | .viewed_bids, pv => { pv with viewed_bids := pv.viewed_bids + 1 }

/-- Model of `_increment_prompt_stat(version_key, stat_name)`:
`UPDATE prompt_versions SET {stat} = {stat} + 1 WHERE version_key = ?`.
A no-op when no row has the key. -/
def increment_prompt_stat (s : Store) (version_key : String) (stat : StatName) : Store :=
  { s with pvs := s.pvs.map (fun pv =>
      if pv.version_key == version_key then bumpStat stat pv else pv) }

/-- The weighted score of `_recalculate_prompt_success_rate`:
`(won*3 + engaged*2 + viewed) / (total*3)`. -/
def weightedScore (pv : PromptVersion) : ℚ :=
  (pv.won_bids * 3 + pv.engaged_bids * 2 + pv.viewed_bids : ℚ) / (pv.total_bids * 3 : ℚ)

/-- Model of `_recalculate_prompt_success_rate(version_key)`: fetch the row; when it
exists and `total_bids > 0`, write `min(1.0, weighted)` back; otherwise
write nothing. -/
def recalculate_prompt_success_rate (s : Store) (version_key : String) : Store :=
  match getPV s version_key with
  | none => s
  | some row =>
    if row.total_bids > 0 then
      let rate := min 1 (weightedScore row)
      { s with pvs := s.pvs.map (fun pv =>
          if pv.version_key == version_key then { pv with success_rate := rate } else pv) }
    else s

/-- Model of `save_bid(...)`: INSERT a fresh row with default outcome/flags/rating,
then increment the prompt version's `total_bids`.  Returns the new id. -/
def save_bid (s : Store) (project_title : String) (bid_text : String)
    (prompt_version : String) (project_type : Option String := none) : Store × Nat :=
  let bid : Bid :=
    { project_title := project_title, project_type := project_type,
      bid_text := bid_text, prompt_version := prompt_version }
  let bid_id := s.nextId
  let s1 : Store := { s with bids := s.bids ++ [(bid_id, bid)], nextId := bid_id + 1 }
  (increment_prompt_stat s1 prompt_version .total_bids, bid_id)

/-- Model of `save_uploaded_bid(...)`: INSERT a row with prompt version `"uploaded"`,
outcome `"won"`, `was_won = 1`, and rating 20 for source
`"other_freelancer"`, 15 otherwise.  No prompt-version stat is touched. -/
def save_uploaded_bid (s : Store) (project_title : String) (bid_text : String)
    (project_type : String) (upload_source : String)
    (upload_notes : Option String := none) : Store × Nat :=
  let rating : Int := if upload_source == "other_freelancer" then 20 else 15
  let bid : Bid :=
    { project_title := project_title, project_type := some project_type,
      bid_text := bid_text, prompt_version := "uploaded",
      outcome := "won", rating := rating, was_won := true,
      is_uploaded := true, upload_source := some upload_source,
      upload_notes := upload_notes }
  let bid_id := s.nextId
  ({ s with bids := s.bids ++ [(bid_id, bid)], nextId := bid_id + 1 }, bid_id)

/-- Model of `update_bid_outcome(bid_id, outcome, was_viewed, was_engaged, was_won,
was_high_rank, notes)`: read the previous flags, write the new label, flags
and notes, then increment each funnel counter only on a false-to-true
transition, and finally recompute the success rate. -/
def update_bid_outcome (s : Store) (bid_id : Nat) (outcome : String)
    (was_viewed : Bool := false) (was_engaged : Bool := false)
    (was_won : Bool := false) (was_high_rank : Bool := false)
    (notes : Option String := none) : Store × Bool :=
  match getBid s bid_id with
  | none => (s, false)
  | some row =>
    let prompt_version := row.prompt_version
    let prev_viewed := row.was_viewed
    let prev_engaged := row.was_engaged
    let prev_won := row.was_won
    let s1 := mapBid s bid_id (fun b =>
      { b with outcome := outcome, outcome_notes := notes,
               was_viewed := was_viewed, was_engaged := was_engaged,
               was_won := was_won, was_high_rank := was_high_rank })
    let s2 := if was_viewed && !prev_viewed then
        increment_prompt_stat s1 prompt_version .viewed_bids else s1
    let s3 := if was_engaged && !prev_engaged then
        increment_prompt_stat s2 prompt_version .engaged_bids else s2
    let s4 := if was_won && !prev_won then
        increment_prompt_stat s3 prompt_version .won_bids else s3
    (recalculate_prompt_success_rate s4 prompt_version, true)

/-- Model of `save_final_bid(bid_id, final_text, feedback)`: store the final text,
a structured diff only when the text changed, and the feedback note. -/
def save_final_bid (s : Store) (bid_id : Nat) (final_text : String)
    (feedback : Option String := none) : Store × Bool :=
  match getBid s bid_id with
  | none => (s, false)
  | some row =>
    let edits : Option EditDiff :=
      if row.bid_text == final_text then none
      else some { original := row.bid_text, final := final_text }
    (mapBid s bid_id (fun b =>
      { b with final_bid_text := some final_text, user_edits := edits,
               feedback_notes := feedback }), true)

/-- The `RATING_VALUES` table: bad = -5, regular = 0, good = 5,
winning = 10 (a bonus). -/
def RATING_VALUES (rating_type : String) : Option Int :=
  if rating_type == "bad" then some (-5)
  else if rating_type == "regular" then some 0
  else if rating_type == "good" then some 5
  else if rating_type == "winning" then some 10
  else none

/-- Model of `rate_bid(bid_id, rating_type)`: reject unknown kinds; `"winning"` adds
10 to the current rating, forces `was_won`, and bumps the won counter and
success rate only when the record was not already won; the other kinds set
the rating absolutely.  Returns the new rating. -/
def rate_bid (s : Store) (bid_id : Nat) (rating_type : String) : Store × Option Int :=
  match RATING_VALUES rating_type with
  | none => (s, none)
  | some value =>
    match getBid s bid_id with
    | none => (s, none)
    | some row =>
      let current_rating := row.rating
      let prompt_version := row.prompt_version
      let was_already_won := row.was_won
      if rating_type == "winning" then
        let new_rating := current_rating + 10
        let s1 := mapBid s bid_id (fun b => { b with rating := new_rating, was_won := true })
        let s2 := if was_already_won then s1 else
          recalculate_prompt_success_rate
            (increment_prompt_stat s1 prompt_version .won_bids) prompt_version
        (s2, some new_rating)
      else
        (mapBid s bid_id (fun b => { b with rating := value }), some value)

/-- Model of `register_prompt_version(version_key, name, description, is_active,
is_approved)`: INSERT, and on the UNIQUE-key integrity error UPDATE the
existing row's name, description and flags instead. -/
def register_prompt_version (s : Store) (version_key : String) (name : String)
    (description : Option String := none) (is_active : Bool := false)
    (is_approved : Bool := false) : Store :=
  if s.pvs.any (fun pv => pv.version_key == version_key) then
    { s with pvs := s.pvs.map (fun pv =>
        if pv.version_key == version_key then
          { pv with name := name, description := description,
                    is_active := is_active, is_approved := is_approved }
        else pv) }
  else
    { s with pvs := s.pvs ++
        [{ version_key := version_key, name := name,
           description := description, is_active := is_active,
           is_approved := is_approved }] }

/-- Model of `set_active_prompt_version(version_key)`: clear every active flag, then
set the flag on the rows matching the key. -/
def set_active_prompt_version (s : Store) (version_key : String) : Store :=
  let s1 : Store := { s with pvs := s.pvs.map (fun pv => { pv with is_active := false }) }
  { s1 with pvs := s1.pvs.map (fun pv =>
      if pv.version_key == version_key then { pv with is_active := true } else pv) }

/-- Model of `approve_prompt_version(version_key)`. -/
def approve_prompt_version (s : Store) (version_key : String) : Store :=
  { s with pvs := s.pvs.map (fun pv =>
      if pv.version_key == version_key then { pv with is_approved := true } else pv) }

/-- Python `round` (banker's rounding, half to even) on a rational. -/
def pyRound (q : ℚ) : ℤ :=
  if q - ⌊q⌋ = 1 / 2 then (if 2 ∣ ⌊q⌋ then ⌊q⌋ else ⌊q⌋ + 1) else round q

/-- Python `round(x, 1)`: round to one decimal place. -/
def roundTo1 (q : ℚ) : ℚ := (pyRound (q * 10) : ℚ) / 10

/-- The result of `get_learning_stats` (the per-project-type breakdown
`by_type` is not modelled; no claim mentions it). -/
structure LearningStats where
  total_bids : Nat
  won : Nat
  engaged : Nat
  viewed : Nat
  pending : Nat
  win_rate : ℚ
  engagement_rate : ℚ
  good_rated : Nat
  bad_rated : Nat
  avg_rating : ℚ
deriving DecidableEq

/-- The ratings of the rows satisfying `rating != 0`: the rows that
`AVG(rating) ... WHERE rating != 0` averages over. -/
def nonzeroRatings (s : Store) : List Int :=
  ((s.bids.map (·.2)).map (·.rating)).filter (fun r => r != 0)

/-- SQL `AVG` over a list of integer ratings, with NULL (empty set) turned
into 0 by the `or 0` fallback in the source. -/
def ratAvg (l : List Int) : ℚ :=
  if l.length = 0 then 0 else (l.sum : ℚ) / (l.length : ℚ)

/-- Model of `get_learning_stats()`: counts over the bids table; `avg_rating` is
`AVG(rating)` over the rows with `rating != 0` (0 when there are none,
from the `or 0` fallback on the NULL average) rounded to one decimal. -/
def get_learning_stats (s : Store) : LearningStats :=
  let rows := s.bids.map (·.2)
  let total := rows.length
  let won := rows.countP (·.was_won)
  let engaged := rows.countP (·.was_engaged)
  let viewed := rows.countP (·.was_viewed)
  let pending := rows.countP (fun b => b.outcome == "pending")
  let good_rated := rows.countP (fun b => b.rating ≥ 5)
  let bad_rated := rows.countP (fun b => b.rating ≤ -5)
  { total_bids := total, won := won, engaged := engaged, viewed := viewed,
    pending := pending,
    win_rate := if total > 0 then (won : ℚ) / (total : ℚ) * 100 else 0,
    engagement_rate := if total > 0 then (engaged : ℚ) / (total : ℚ) * 100 else 0,
    good_rated := good_rated, bad_rated := bad_rated,
    avg_rating := roundTo1 (ratAvg (nonzeroRatings s)) }

/-- One ledger operation, for reachability statements. -/
inductive Op
  | register (version_key name : String) (description : Option String)
      (is_active is_approved : Bool)
  | setActive (version_key : String)
  | approve (version_key : String)
  | createBid (project_title bid_text prompt_version : String)
      (project_type : Option String)
  | importBid (project_title bid_text project_type upload_source : String)
      (upload_notes : Option String)
  | outcome (bid_id : Nat) (outcome_label : String)
      (was_viewed was_engaged was_won was_high_rank : Bool) (notes : Option String)
  | rate (bid_id : Nat) (rating_type : String)
  | finalText (bid_id : Nat) (final_text : String) (feedback : Option String)
deriving DecidableEq

/-- Apply one operation to the store. -/
def applyOp (s : Store) : Op → Store
  | .register k n d a ap => register_prompt_version s k n d a ap
  | .setActive k => set_active_prompt_version s k
  | .approve k => approve_prompt_version s k
  | .createBid t x pv pt => (save_bid s t x pv pt).1
  | .importBid t x pt src n => (save_uploaded_bid s t x pt src n).1
  | .outcome i o v e w h n => (update_bid_outcome s i o v e w h n).1
  | .rate i k => (rate_bid s i k).1
  | .finalText i t f => (save_final_bid s i t f).1

/-- Run a sequence of operations from the empty store. -/
def runOps (ops : List Op) : Store := ops.foldl applyOp emptyStore

/-! ### Derived observations used by the statements -/

/-- The `total_bids` counter of the prompt version with the given key
(0 when the row is missing). -/
def totalOf (s : Store) (key : String) : Nat :=
  ((getPV s key).map (·.total_bids)).getD 0

/-- The `won_bids` counter of the prompt version with the given key. -/
def wonOf (s : Store) (key : String) : Nat :=
  ((getPV s key).map (·.won_bids)).getD 0

/-- The `engaged_bids` counter of the prompt version with the given key. -/
def engagedOf (s : Store) (key : String) : Nat :=
  ((getPV s key).map (·.engaged_bids)).getD 0

/-- The `viewed_bids` counter of the prompt version with the given key. -/
def viewedOf (s : Store) (key : String) : Nat :=
  ((getPV s key).map (·.viewed_bids)).getD 0

/-- The stored `success_rate` of the prompt version with the given key. -/
def srOf (s : Store) (key : String) : ℚ :=
  ((getPV s key).map (·.success_rate)).getD 0

/-- Number of prompt-version rows whose active flag is set. -/
def activeCount (s : Store) : Nat := s.pvs.countP (·.is_active)

/-- The version keys of the prompt-version table are pairwise distinct
(the UNIQUE constraint). -/
def NodupKeys (s : Store) : Prop := (s.pvs.map (·.version_key)).Nodup

/-! ### Lookup lemmas -/

theorem bumpStat_version_key (st : StatName) (pv : PromptVersion) :
    (bumpStat st pv).version_key = pv.version_key := by
  cases st <;> rfl

theorem getPV_mk (bids : List (Nat × Bid)) (n : Nat) (pvs : List PromptVersion)
    (k : String) :
    getPV ⟨bids, n, pvs⟩ k = pvs.find? (fun pv => pv.version_key == k) := rfl

theorem getBid_mk (bids : List (Nat × Bid)) (n : Nat) (pvs : List PromptVersion)
    (i : Nat) :
    getBid ⟨bids, n, pvs⟩ i = (bids.find? (fun p => p.1 == i)).map (·.2) := rfl

theorem find?_map_of_key_fixed (g : PromptVersion → PromptVersion)
    (hg : ∀ pv, (g pv).version_key = pv.version_key)
    (l : List PromptVersion) (k : String) :
    (l.map g).find? (fun pv => pv.version_key == k) =
      (l.find? (fun pv => pv.version_key == k)).map g := by
  rw [List.find?_map]
  have : ((fun pv => pv.version_key == k) ∘ g) = (fun pv => pv.version_key == k) := by
    funext pv
    simp [Function.comp, hg]
  rw [this]

theorem getPV_inc (s : Store) (k : String) (st : StatName) (k' : String) :
    getPV (increment_prompt_stat s k st) k' =
      (getPV s k').map (fun pv => if pv.version_key == k then bumpStat st pv else pv) := by
  unfold getPV increment_prompt_stat
  exact find?_map_of_key_fixed _
    (fun pv => by by_cases h : pv.version_key == k <;> simp [h, bumpStat_version_key]) _ _

theorem getPV_key (s : Store) (k : String) (q : PromptVersion)
    (hq : getPV s k = some q) : q.version_key = k := by
  have := List.find?_some hq
  simpa using this

theorem getPV_inc_self (s : Store) (k : String) (st : StatName) (q : PromptVersion)
    (hq : getPV s k = some q) :
    getPV (increment_prompt_stat s k st) k = some (bumpStat st q) := by
  rw [getPV_inc, hq]
  simp [getPV_key s k q hq]

theorem getPV_inc_other (s : Store) (k : String) (st : StatName) (k' : String)
    (hne : k' ≠ k) : getPV (increment_prompt_stat s k st) k' = getPV s k' := by
  rw [getPV_inc]
  cases hq : getPV s k' with
  | none => rfl
  | some q =>
    have hk := getPV_key s k' q hq
    have hfalse : ¬ (q.version_key == k) = true := by
      simp only [beq_iff_eq, hk]
      exact hne
    simp only [Option.map_some', if_neg hfalse]

theorem inc_of_missing (s : Store) (k : String) (st : StatName)
    (h : ∀ pv ∈ s.pvs, pv.version_key ≠ k) : increment_prompt_stat s k st = s := by
  unfold increment_prompt_stat
  have heq : s.pvs.map (fun pv => if pv.version_key == k then bumpStat st pv else pv) =
      s.pvs.map (fun pv => pv) := by
    apply List.map_congr_left
    intro pv hpv
    simp [h pv hpv]
  rw [heq, List.map_id']

theorem recalc_of_missing (s : Store) (k : String)
    (h : getPV s k = none) : recalculate_prompt_success_rate s k = s := by
  unfold recalculate_prompt_success_rate
  rw [h]

theorem recalc_of_zero_total (s : Store) (k : String) (q : PromptVersion)
    (hq : getPV s k = some q) (h0 : q.total_bids = 0) :
    recalculate_prompt_success_rate s k = s := by
  unfold recalculate_prompt_success_rate
  rw [hq]
  simp [h0]

theorem getPV_recalc_self (s : Store) (k : String) (q : PromptVersion)
    (hq : getPV s k = some q) (ht : 0 < q.total_bids) :
    getPV (recalculate_prompt_success_rate s k) k =
      some { q with success_rate := min 1 (weightedScore q) } := by
  unfold recalculate_prompt_success_rate
  rw [hq]
  dsimp only
  rw [if_pos ht]
  rw [getPV_mk]
  rw [find?_map_of_key_fixed
    (fun pv => if pv.version_key == k then { pv with success_rate := min 1 (weightedScore q) } else pv)
    (fun pv => by by_cases h : pv.version_key == k <;> simp [h]) s.pvs k]
  have hfind : s.pvs.find? (fun pv => pv.version_key == k) = some q := hq
  rw [hfind]
  have hk : (q.version_key == k) = true := by
    simp [getPV_key s k q hq]
  simp only [Option.map_some', if_pos hk]

theorem bids_inc (s : Store) (k : String) (st : StatName) :
    (increment_prompt_stat s k st).bids = s.bids := rfl

theorem bids_recalc (s : Store) (k : String) :
    (recalculate_prompt_success_rate s k).bids = s.bids := by
  unfold recalculate_prompt_success_rate
  cases hq : getPV s k with
  | none => rfl
  | some q =>
    dsimp only
    by_cases ht : q.total_bids > 0
    · rw [if_pos ht]
    · rw [if_neg ht]

theorem getBid_inc (s : Store) (k : String) (st : StatName) (i : Nat) :
    getBid (increment_prompt_stat s k st) i = getBid s i := rfl

theorem getBid_recalc (s : Store) (k : String) (i : Nat) :
    getBid (recalculate_prompt_success_rate s k) i = getBid s i := by
  unfold getBid
  rw [bids_recalc]

theorem getPV_mapBid (s : Store) (i : Nat) (f : Bid → Bid) (k : String) :
    getPV (mapBid s i f) k = getPV s k := rfl

/-- The whole-pair view of the counters of one prompt-version row. -/
def countersOf (pv : PromptVersion) : Nat × Nat × Nat × Nat :=
  (pv.total_bids, pv.won_bids, pv.engaged_bids, pv.viewed_bids)

theorem counters_recalc (s : Store) (k k' : String) :
    (getPV (recalculate_prompt_success_rate s k) k').map countersOf =
      (getPV s k').map countersOf := by
  unfold recalculate_prompt_success_rate
  cases hq : getPV s k with
  | none => rfl
  | some q =>
    dsimp only
    by_cases ht : q.total_bids > 0
    · rw [if_pos ht, getPV_mk]
      rw [find?_map_of_key_fixed _ (fun pv => by by_cases h : pv.version_key == k <;> simp [h]) s.pvs k']
      unfold getPV
      cases hfind : s.pvs.find? (fun pv => pv.version_key == k') with
      | none => rfl
      | some pv =>
        simp only [Option.map_some']
        by_cases h : (pv.version_key == k) = true
        · rw [if_pos h]
          rfl
        · rw [if_neg h]
    · rw [if_neg ht]

theorem totalOf_recalc (s : Store) (k k' : String) :
    totalOf (recalculate_prompt_success_rate s k) k' = totalOf s k' := by
  have h := counters_recalc s k k'
  unfold totalOf
  cases h1 : getPV (recalculate_prompt_success_rate s k) k' <;>
    cases h2 : getPV s k' <;> rw [h1, h2] at h <;> simp [countersOf] at h <;> simp [h]

theorem wonOf_recalc (s : Store) (k k' : String) :
    wonOf (recalculate_prompt_success_rate s k) k' = wonOf s k' := by
  have h := counters_recalc s k k'
  unfold wonOf
  cases h1 : getPV (recalculate_prompt_success_rate s k) k' <;>
    cases h2 : getPV s k' <;> rw [h1, h2] at h <;> simp [countersOf] at h <;> simp [h]

theorem engagedOf_recalc (s : Store) (k k' : String) :
    engagedOf (recalculate_prompt_success_rate s k) k' = engagedOf s k' := by
  have h := counters_recalc s k k'
  unfold engagedOf
  cases h1 : getPV (recalculate_prompt_success_rate s k) k' <;>
    cases h2 : getPV s k' <;> rw [h1, h2] at h <;> simp [countersOf] at h <;> simp [h]

theorem viewedOf_recalc (s : Store) (k k' : String) :
    viewedOf (recalculate_prompt_success_rate s k) k' = viewedOf s k' := by
  have h := counters_recalc s k k'
  unfold viewedOf
  cases h1 : getPV (recalculate_prompt_success_rate s k) k' <;>
    cases h2 : getPV s k' <;> rw [h1, h2] at h <;> simp [countersOf] at h <;> simp [h]

theorem getBid_mapBid_self (s : Store) (i : Nat) (f : Bid → Bid) (b : Bid)
    (hb : getBid s i = some b) : getBid (mapBid s i f) i = some (f b) := by
  unfold mapBid
  rw [getBid_mk, List.find?_map]
  have hcomp : ((fun p => p.1 == i) ∘
      (fun p : Nat × Bid => if p.1 == i then (p.1, f p.2) else p)) = (fun p => p.1 == i) := by
    funext p
    show ((if p.1 == i then (p.1, f p.2) else p).1 == i) = (p.1 == i)
    by_cases h : (p.1 == i) = true
    · rw [if_pos h]
    · rw [if_neg h]
  rw [hcomp]
  unfold getBid at hb
  cases hfind : s.bids.find? (fun p => p.1 == i) with
  | none => rw [hfind] at hb; simp at hb
  | some p =>
    rw [hfind] at hb
    have hp : p.1 = i := by simpa using List.find?_some hfind
    simp only [Option.map_some', Option.some.injEq] at hb
    simp [hp, hb]

theorem getBid_mapBid_ne (s : Store) (i : Nat) (f : Bid → Bid) (j : Nat)
    (hne : j ≠ i) : getBid (mapBid s i f) j = getBid s j := by
  unfold mapBid
  rw [getBid_mk, List.find?_map]
  have hcomp : ((fun p => p.1 == j) ∘
      (fun p : Nat × Bid => if p.1 == i then (p.1, f p.2) else p)) = (fun p => p.1 == j) := by
    funext p
    show ((if p.1 == i then (p.1, f p.2) else p).1 == j) = (p.1 == j)
    by_cases h : (p.1 == i) = true
    · rw [if_pos h]
    · rw [if_neg h]
  rw [hcomp]
  unfold getBid
  cases hfind : s.bids.find? (fun p => p.1 == j) with
  | none => rfl
  | some p =>
    have hp : p.1 = j := by simpa using List.find?_some hfind
    have hpi : ¬ p.1 = i := by
      rw [hp]
      exact hne
    simp [hpi]

theorem getBid_append_fresh (s : Store) (n : Nat) (b : Bid)
    (h : ∀ p ∈ s.bids, p.1 ≠ n) :
    (s.bids ++ [(n, b)]).find? (fun p => p.1 == n) = some (n, b) := by
  rw [List.find?_append]
  have h1 : s.bids.find? (fun p => p.1 == n) = none := by
    rw [List.find?_eq_none]
    intro p hp
    simp [h p hp]
  rw [h1]
  simp

/-! ### A uniform view of the four counters -/

/-- Select one of the four counter columns. -/
def statSel : StatName → (PromptVersion → Nat)
  | .total_bids => (·.total_bids)
  | .won_bids => (·.won_bids)
  | .engaged_bids => (·.engaged_bids)
  | .viewed_bids => (·.viewed_bids)

/-- The value of one counter of the prompt version with the given key. -/
def statOf (s : Store) (st : StatName) (k : String) : Nat :=
  ((getPV s k).map (statSel st)).getD 0

theorem totalOf_eq_statOf (s : Store) (k : String) : totalOf s k = statOf s .total_bids k := rfl

theorem wonOf_eq_statOf (s : Store) (k : String) : wonOf s k = statOf s .won_bids k := rfl

theorem engagedOf_eq_statOf (s : Store) (k : String) :
    engagedOf s k = statOf s .engaged_bids k := rfl

theorem viewedOf_eq_statOf (s : Store) (k : String) :
    viewedOf s k = statOf s .viewed_bids k := rfl

theorem statSel_bump (st st' : StatName) (pv : PromptVersion) :
    statSel st' (bumpStat st pv) = statSel st' pv + (if st' = st then 1 else 0) := by
  cases st <;> cases st' <;> simp [statSel, bumpStat]

theorem statOf_inc (s : Store) (k : String) (st st' : StatName) (k' : String) :
    statOf (increment_prompt_stat s k st) st' k' =
      statOf s st' k' + (if (getPV s k').isSome ∧ k' = k ∧ st' = st then 1 else 0) := by
  unfold statOf
  rw [getPV_inc]
  cases hq : getPV s k' with
  | none => simp
  | some q =>
    have hk := getPV_key s k' q hq
    simp only [Option.map_some', Option.getD_some]
    by_cases hkk : (q.version_key == k) = true
    · have hkeq : k' = k := by
        rw [← hk]
        exact beq_iff_eq.mp hkk
      rw [if_pos hkk, statSel_bump]
      simp [hkeq]
    · have hkne : ¬ k' = k := by
        intro hcon
        exact hkk (by simp [hk, hcon])
      rw [if_neg hkk]
      simp [hkne]

theorem statOf_recalc (s : Store) (k : String) (st : StatName) (k' : String) :
    statOf (recalculate_prompt_success_rate s k) st k' = statOf s st k' := by
  cases st
  · rw [← totalOf_eq_statOf, ← totalOf_eq_statOf]
    exact totalOf_recalc s k k'
  · rw [← wonOf_eq_statOf, ← wonOf_eq_statOf]
    exact wonOf_recalc s k k'
  · rw [← engagedOf_eq_statOf, ← engagedOf_eq_statOf]
    exact engagedOf_recalc s k k'
  · rw [← viewedOf_eq_statOf, ← viewedOf_eq_statOf]
    exact viewedOf_recalc s k k'

theorem isSome_getPV_inc (s : Store) (k : String) (st : StatName) (k' : String) :
    (getPV (increment_prompt_stat s k st) k').isSome = (getPV s k').isSome := by
  rw [getPV_inc]
  cases getPV s k' <;> rfl

theorem isSome_getPV_recalc (s : Store) (k k' : String) :
    (getPV (recalculate_prompt_success_rate s k) k').isSome = (getPV s k').isSome := by
  have h := counters_recalc s k k'
  cases h1 : getPV (recalculate_prompt_success_rate s k) k' <;>
      cases h2 : getPV s k' <;> rw [h1, h2] at h <;> simp at h <;> rfl

theorem statOf_mapBid (s : Store) (i : Nat) (f : Bid → Bid) (st : StatName)
    (k : String) : statOf (mapBid s i f) st k = statOf s st k := rfl

/-- The false-to-true transition test of `update_bid_outcome` for one
funnel counter: the new flag is true and the record's previous one false. -/
def statTransition : StatName → Bid → Bool → Bool → Bool → Bool
  | .total_bids, _, _, _, _ => false
  | .viewed_bids, b, v, _, _ => v && !b.was_viewed
  | .engaged_bids, b, _, e, _ => e && !b.was_engaged
  | .won_bids, b, _, _, w => w && !b.was_won

theorem statOf_update (s : Store) (i : Nat) (o : String) (v e w hr : Bool)
    (n : Option String) (b : Bid) (hb : getBid s i = some b) (st : StatName) :
    statOf (update_bid_outcome s i o v e w hr n).1 st b.prompt_version =
      statOf s st b.prompt_version +
        (if (getPV s b.prompt_version).isSome ∧ statTransition st b v e w = true
         then 1 else 0) := by
  unfold update_bid_outcome
  rw [hb]
  dsimp only
  rw [statOf_recalc]
  by_cases h1 : (v && !b.was_viewed) = true <;>
    by_cases h2 : (e && !b.was_engaged) = true <;>
      by_cases h3 : (w && !b.was_won) = true <;>
        cases st <;>
          simp [h1, h2, h3, statOf_inc, isSome_getPV_inc, statTransition,
            statOf_mapBid, getPV_mapBid]

theorem statOf_update_mono (s : Store) (i : Nat) (o : String) (v e w hr : Bool)
    (n : Option String) (k : String) (st : StatName) :
    statOf s st k ≤ statOf (update_bid_outcome s i o v e w hr n).1 st k := by
  unfold update_bid_outcome
  cases hb : getBid s i with
  | none => exact Nat.le_refl _
  | some b =>
    dsimp only
    rw [statOf_recalc]
    have monoIte : ∀ (x : Store) (c : Bool) (kk : String) (st0 : StatName),
        statOf x st k ≤ statOf (if c = true then increment_prompt_stat x kk st0 else x) st k := by
      intro x c kk st0
      by_cases hc : c = true
      · rw [if_pos hc, statOf_inc]
        exact Nat.le_add_right _ _
      · rw [if_neg hc]
    calc statOf s st k
        = statOf (mapBid s i (fun bb =>
            { bb with outcome := o, outcome_notes := n, was_viewed := v,
                      was_engaged := e, was_won := w, was_high_rank := hr })) st k := rfl
      _ ≤ _ := by
          apply Nat.le_trans (monoIte _ (v && !b.was_viewed) b.prompt_version .viewed_bids)
          apply Nat.le_trans (monoIte _ (e && !b.was_engaged) b.prompt_version .engaged_bids)
          exact monoIte _ (w && !b.was_won) b.prompt_version .won_bids

theorem getBid_update_self (s : Store) (i : Nat) (o : String) (v e w hr : Bool)
    (n : Option String) (b : Bid) (hb : getBid s i = some b) :
    getBid (update_bid_outcome s i o v e w hr n).1 i =
      some { b with outcome := o, outcome_notes := n, was_viewed := v,
                    was_engaged := e, was_won := w, was_high_rank := hr } := by
  unfold update_bid_outcome
  rw [hb]
  dsimp only
  rw [getBid_recalc]
  have hthrough : ∀ (x : Store) (c : Bool) (kk : String) (st0 : StatName),
      getBid (if c = true then increment_prompt_stat x kk st0 else x) i = getBid x i := by
    intro x c kk st0
    by_cases hc : c = true
    · rw [if_pos hc, getBid_inc]
    · rw [if_neg hc]
  rw [hthrough, hthrough, hthrough]
  exact getBid_mapBid_self s i _ b hb

theorem isSome_getPV_update (s : Store) (i : Nat) (o : String) (v e w hr : Bool)
    (n : Option String) (k : String) :
    (getPV (update_bid_outcome s i o v e w hr n).1 k).isSome = (getPV s k).isSome := by
  unfold update_bid_outcome
  cases hb : getBid s i with
  | none => rfl
  | some b =>
    dsimp only
    rw [isSome_getPV_recalc]
    have hthrough : ∀ (x : Store) (c : Bool) (kk : String) (st0 : StatName),
        (getPV (if c = true then increment_prompt_stat x kk st0 else x) k).isSome =
          (getPV x k).isSome := by
      intro x c kk st0
      by_cases hc : c = true
      · rw [if_pos hc, isSome_getPV_inc]
      · rw [if_neg hc]
    rw [hthrough, hthrough, hthrough]
    rfl

/-! ### Invariants that hold in every reachable store -/

/-- The version keys of the prompt-version table, in order. -/
def keysOf (s : Store) : List String := s.pvs.map (·.version_key)

theorem nodupKeys_iff (s : Store) : NodupKeys s ↔ (keysOf s).Nodup := Iff.rfl

theorem keys_map_fixed (l : List PromptVersion) (g : PromptVersion → PromptVersion)
    (hg : ∀ pv, (g pv).version_key = pv.version_key) :
    (l.map g).map (·.version_key) = l.map (·.version_key) := by
  rw [List.map_map]
  exact List.map_congr_left fun pv _ => hg pv

theorem keysOf_mk (bids : List (Nat × Bid)) (n : Nat) (pvs : List PromptVersion) :
    keysOf ⟨bids, n, pvs⟩ = pvs.map (·.version_key) := rfl

theorem keysOf_inc (s : Store) (k : String) (st : StatName) :
    keysOf (increment_prompt_stat s k st) = keysOf s := by
  unfold increment_prompt_stat
  rw [keysOf_mk]
  exact keys_map_fixed _ _ (fun pv => by
    by_cases h : (pv.version_key == k) = true <;> simp [h, bumpStat_version_key])

theorem keysOf_recalc (s : Store) (k : String) :
    keysOf (recalculate_prompt_success_rate s k) = keysOf s := by
  unfold recalculate_prompt_success_rate
  cases hq : getPV s k with
  | none => rfl
  | some q =>
    dsimp only
    by_cases ht : q.total_bids > 0
    · rw [if_pos ht, keysOf_mk]
      exact keys_map_fixed _ _ (fun pv => by
        by_cases h : (pv.version_key == k) = true <;> simp [h])
    · rw [if_neg ht]

theorem keysOf_ite_inc (c : Prop) [Decidable c] (x : Store) (k : String) (st : StatName) :
    keysOf (if c then increment_prompt_stat x k st else x) = keysOf x := by
  by_cases hc : c
  · rw [if_pos hc, keysOf_inc]
  · rw [if_neg hc]

theorem keysOf_mapBid (s : Store) (i : Nat) (f : Bid → Bid) :
    keysOf (mapBid s i f) = keysOf s := rfl

/-- Every ledger operation preserves the UNIQUE-key property of the
prompt-version table. -/
theorem nodupKeys_applyOp (s : Store) (op : Op) (h : NodupKeys s) :
    NodupKeys (applyOp s op) := by
  cases op with
  | register k n d a ap =>
    show NodupKeys (register_prompt_version s k n d a ap)
    unfold register_prompt_version
    by_cases hex : (s.pvs.any fun pv => pv.version_key == k) = true
    · rw [if_pos hex, nodupKeys_iff, keysOf_mk]
      rw [keys_map_fixed _ _ (fun pv => by
        by_cases hkk : (pv.version_key == k) = true <;> simp [hkk])]
      exact h
    · rw [if_neg hex, nodupKeys_iff, keysOf_mk, List.map_append]
      rw [List.nodup_append]
      refine ⟨h, List.nodup_singleton _, ?_⟩
      intro x hx hx2
      simp only [List.map_cons, List.map_nil, List.mem_singleton] at hx2
      subst hx2
      rcases List.mem_map.mp hx with ⟨pv, hpv, hkey⟩
      exact hex (List.any_eq_true.mpr ⟨pv, hpv, by simp [hkey]⟩)
  | setActive k =>
    show NodupKeys (set_active_prompt_version s k)
    unfold set_active_prompt_version
    rw [nodupKeys_iff]
    dsimp only
    rw [keysOf_mk]
    rw [keys_map_fixed _ _ (fun pv => by
      by_cases hkk : (pv.version_key == k) = true <;> simp [hkk])]
    rw [keys_map_fixed s.pvs (fun pv => { pv with is_active := false }) (fun pv => rfl)]
    exact h
  | approve k =>
    show NodupKeys (approve_prompt_version s k)
    unfold approve_prompt_version
    rw [nodupKeys_iff, keysOf_mk]
    rw [keys_map_fixed _ _ (fun pv => by
      by_cases hkk : (pv.version_key == k) = true <;> simp [hkk])]
    exact h
  | createBid t x pv pt =>
    show NodupKeys (save_bid s t x pv pt).1
    unfold save_bid
    dsimp only
    rw [nodupKeys_iff, keysOf_inc]
    exact h
  | importBid t x pt src nn =>
    exact h
  | outcome i o v e w hr nn =>
    show NodupKeys (update_bid_outcome s i o v e w hr nn).1
    unfold update_bid_outcome
    cases hb : getBid s i with
    | none => exact h
    | some b =>
      dsimp only
      rw [nodupKeys_iff, keysOf_recalc, keysOf_ite_inc, keysOf_ite_inc, keysOf_ite_inc,
        keysOf_mapBid]
      exact h
  | rate i kind =>
    show NodupKeys (rate_bid s i kind).1
    unfold rate_bid
    cases hv : RATING_VALUES kind with
    | none => exact h
    | some v =>
      dsimp only
      cases hb : getBid s i with
      | none => exact h
      | some b =>
        dsimp only
        by_cases hw : (kind == "winning") = true
        · rw [if_pos hw]
          dsimp only
          by_cases hww : b.was_won = true
          · rw [if_pos hww]
            exact h
          · rw [if_neg hww, nodupKeys_iff, keysOf_recalc, keysOf_inc, keysOf_mapBid]
            exact h
        · rw [if_neg hw]
          exact h
  | finalText i t f =>
    show NodupKeys (save_final_bid s i t f).1
    unfold save_final_bid
    cases hb : getBid s i with
    | none => exact h
    | some b => exact h

/-- The empty store trivially has unique keys. -/
theorem nodupKeys_emptyStore : NodupKeys emptyStore := List.nodup_nil

theorem nodupKeys_foldl (ops : List Op) (s : Store) (h : NodupKeys s) :
    NodupKeys (ops.foldl applyOp s) := by
  induction ops generalizing s with
  | nil => exact h
  | cons op rest ih => exact ih (applyOp s op) (nodupKeys_applyOp s op h)

/-- Every reachable store has pairwise distinct version keys. -/
theorem nodupKeys_runOps (ops : List Op) : NodupKeys (runOps ops) :=
  nodupKeys_foldl ops emptyStore nodupKeys_emptyStore

/-- In a table with unique keys, any member whose key matches the search
key is the row that `find?` returns. -/
theorem find?_key_unique (l : List PromptVersion)
    (hnd : (l.map (·.version_key)).Nodup) (k : String) (q : PromptVersion)
    (hq : l.find? (fun pv => pv.version_key == k) = some q)
    (pv : PromptVersion) (hpv : pv ∈ l) (hk : pv.version_key = k) : pv = q := by
  induction l with
  | nil => exact absurd hpv (List.not_mem_nil pv)
  | cons a t ih =>
    simp only [List.map_cons, List.nodup_cons] at hnd
    rcases hnd with ⟨hna, hndt⟩
    by_cases ha : (a.version_key == k) = true
    · rw [List.find?_cons_of_pos t ha] at hq
      injection hq with hq
      rcases List.mem_cons.mp hpv with hcase | hcase
      · rw [hcase, hq]
      · have hak : a.version_key = k := beq_iff_eq.mp ha
        have : a.version_key ∈ t.map (·.version_key) := by
          rw [hak, ← hk]
          exact List.mem_map_of_mem (·.version_key) hcase
        exact absurd this hna
    · rw [List.find?_cons_of_neg t ha] at hq
      rcases List.mem_cons.mp hpv with hcase | hcase
      · exact absurd (by simp [← hcase, hk]) ha
      · exact ih hndt hq hcase

/-- A row with a zero total has a zero (default) success rate. -/
def ZeroRate (s : Store) : Prop :=
  ∀ pv ∈ s.pvs, pv.total_bids = 0 → pv.success_rate = 0

theorem zeroRate_map (s : Store) (g : PromptVersion → PromptVersion)
    (hg : ∀ pv, (g pv).total_bids = 0 →
      (g pv).success_rate = pv.success_rate ∧ pv.total_bids = 0)
    (h : ZeroRate s) : ZeroRate { s with pvs := s.pvs.map g } := by
  intro pv hpv h0
  rcases List.mem_map.mp hpv with ⟨pv0, hpv0, rfl⟩
  rcases hg pv0 h0 with ⟨hsr, ht⟩
  rw [hsr]
  exact h pv0 hpv0 ht

theorem zeroRate_inc (s : Store) (k : String) (st : StatName) (h : ZeroRate s) :
    ZeroRate (increment_prompt_stat s k st) := by
  unfold increment_prompt_stat
  apply zeroRate_map s _ ?_ h
  intro pv h0
  by_cases hkk : (pv.version_key == k) = true
  · rw [if_pos hkk] at h0 ⊢
    cases st <;> simp_all [bumpStat]
  · rw [if_neg hkk] at h0 ⊢
    exact ⟨rfl, h0⟩

theorem zeroRate_recalc (s : Store) (k : String) (hnd : NodupKeys s)
    (h : ZeroRate s) : ZeroRate (recalculate_prompt_success_rate s k) := by
  unfold recalculate_prompt_success_rate
  cases hq : getPV s k with
  | none => exact h
  | some q =>
    dsimp only
    by_cases ht : q.total_bids > 0
    · rw [if_pos ht]
      intro pv hpv h0
      rcases List.mem_map.mp hpv with ⟨pv0, hpv0, rfl⟩
      by_cases hkk : (pv0.version_key == k) = true
      · have hq0 : pv0 = q :=
          find?_key_unique s.pvs hnd k q hq pv0 hpv0 (beq_iff_eq.mp hkk)
        rw [if_pos hkk] at h0
        subst hq0
        simp only at h0
        omega
      · rw [if_neg hkk] at h0 ⊢
        exact h pv0 hpv0 h0
    · rw [if_neg ht]
      exact h

theorem zeroRate_ite_inc (c : Prop) [Decidable c] (x : Store) (k : String)
    (st : StatName) (h : ZeroRate x) :
    ZeroRate (if c then increment_prompt_stat x k st else x) := by
  by_cases hc : c
  · rw [if_pos hc]
    exact zeroRate_inc x k st h
  · rw [if_neg hc]
    exact h

theorem zeroRate_mapBid (s : Store) (i : Nat) (f : Bid → Bid) (h : ZeroRate s) :
    ZeroRate (mapBid s i f) := h

theorem nodupKeys_mapBid (s : Store) (i : Nat) (f : Bid → Bid) (h : NodupKeys s) :
    NodupKeys (mapBid s i f) := h

theorem nodupKeys_ite_inc (c : Prop) [Decidable c] (x : Store) (k : String)
    (st : StatName) (h : NodupKeys x) :
    NodupKeys (if c then increment_prompt_stat x k st else x) := by
  by_cases hc : c
  · rw [if_pos hc, nodupKeys_iff, keysOf_inc]
    exact h
  · rw [if_neg hc]
    exact h

/-- Every ledger operation preserves the zero-total-zero-rate property
(given unique keys). -/
theorem zeroRate_applyOp (s : Store) (op : Op) (hnd : NodupKeys s)
    (h : ZeroRate s) : ZeroRate (applyOp s op) := by
  cases op with
  | register k n d a ap =>
    show ZeroRate (register_prompt_version s k n d a ap)
    unfold register_prompt_version
    by_cases hex : (s.pvs.any fun pv => pv.version_key == k) = true
    · rw [if_pos hex]
      apply zeroRate_map s _ ?_ h
      intro pv h0
      by_cases hkk : (pv.version_key == k) = true
      · rw [if_pos hkk] at h0 ⊢
        exact ⟨rfl, h0⟩
      · rw [if_neg hkk] at h0 ⊢
        exact ⟨rfl, h0⟩
    · rw [if_neg hex]
      intro pv hpv h0
      rcases List.mem_append.mp hpv with hcase | hcase
      · exact h pv hcase h0
      · simp only [List.mem_singleton] at hcase
        rw [hcase]
  | setActive k =>
    show ZeroRate (set_active_prompt_version s k)
    unfold set_active_prompt_version
    dsimp only
    intro pv hpv h0
    rcases List.mem_map.mp hpv with ⟨pv1, hpv1, rfl⟩
    rcases List.mem_map.mp hpv1 with ⟨pv0, hpv0, rfl⟩
    by_cases hkk : (({ pv0 with is_active := false } : PromptVersion).version_key == k) = true
    · rw [if_pos hkk] at h0 ⊢
      exact h pv0 hpv0 h0
    · rw [if_neg hkk] at h0 ⊢
      exact h pv0 hpv0 h0
  | approve k =>
    show ZeroRate (approve_prompt_version s k)
    unfold approve_prompt_version
    apply zeroRate_map s _ ?_ h
    intro pv h0
    by_cases hkk : (pv.version_key == k) = true
    · rw [if_pos hkk] at h0 ⊢
      exact ⟨rfl, h0⟩
    · rw [if_neg hkk] at h0 ⊢
      exact ⟨rfl, h0⟩
  | createBid t x pv pt =>
    show ZeroRate (save_bid s t x pv pt).1
    unfold save_bid
    dsimp only
    exact zeroRate_inc _ pv .total_bids h
  | importBid t x pt src nn =>
    exact h
  | outcome i o v e w hr nn =>
    show ZeroRate (update_bid_outcome s i o v e w hr nn).1
    unfold update_bid_outcome
    cases hb : getBid s i with
    | none => exact h
    | some b =>
      dsimp only
      apply zeroRate_recalc _ _ ?_ ?_
      · rw [nodupKeys_iff, keysOf_ite_inc, keysOf_ite_inc, keysOf_ite_inc, keysOf_mapBid]
        exact hnd
      · exact zeroRate_ite_inc _ _ _ _ (zeroRate_ite_inc _ _ _ _
          (zeroRate_ite_inc _ _ _ _ (zeroRate_mapBid s i _ h)))
  | rate i kind =>
    show ZeroRate (rate_bid s i kind).1
    unfold rate_bid
    cases hv : RATING_VALUES kind with
    | none => exact h
    | some v =>
      dsimp only
      cases hb : getBid s i with
      | none => exact h
      | some b =>
        dsimp only
        by_cases hw : (kind == "winning") = true
        · rw [if_pos hw]
          dsimp only
          by_cases hww : b.was_won = true
          · rw [if_pos hww]
            exact zeroRate_mapBid s i _ h
          · rw [if_neg hww]
            apply zeroRate_recalc _ _ ?_ ?_
            · rw [nodupKeys_iff, keysOf_inc, keysOf_mapBid]
              exact hnd
            · exact zeroRate_inc _ _ _ (zeroRate_mapBid s i _ h)
        · rw [if_neg hw]
          exact zeroRate_mapBid s i _ h
  | finalText i t f =>
    show ZeroRate (save_final_bid s i t f).1
    unfold save_final_bid
    cases hb : getBid s i with
    | none => exact h
    | some b => exact zeroRate_mapBid s i _ h

theorem zeroRate_emptyStore : ZeroRate emptyStore := by
  intro pv hpv
  exact absurd hpv (List.not_mem_nil pv)

theorem zeroRate_foldl (ops : List Op) (s : Store) (hnd : NodupKeys s)
    (h : ZeroRate s) : ZeroRate (ops.foldl applyOp s) := by
  induction ops generalizing s with
  | nil => exact h
  | cons op rest ih =>
    exact ih (applyOp s op) (nodupKeys_applyOp s op hnd) (zeroRate_applyOp s op hnd h)

/-- In every reachable store, a prompt version with a zero total still has
its default 0.0 success rate. -/
theorem zeroRate_runOps (ops : List Op) : ZeroRate (runOps ops) :=
  zeroRate_foldl ops emptyStore nodupKeys_emptyStore zeroRate_emptyStore

/-! ### Machinery for the active-flag invariant -/

theorem bumpStat_is_active (st : StatName) (pv : PromptVersion) :
    (bumpStat st pv).is_active = pv.is_active := by
  cases st <;> rfl

theorem activeCount_mk (bids : List (Nat × Bid)) (n : Nat) (pvs : List PromptVersion) :
    activeCount ⟨bids, n, pvs⟩ = pvs.countP (·.is_active) := rfl

theorem activeCount_inc (s : Store) (k : String) (st : StatName) :
    activeCount (increment_prompt_stat s k st) = activeCount s := by
  unfold increment_prompt_stat
  rw [activeCount_mk]
  rw [List.countP_map]
  have hp : ((fun pv : PromptVersion => pv.is_active) ∘ (fun pv : PromptVersion =>
      if pv.version_key == k then bumpStat st pv else pv)) =
      (fun pv : PromptVersion => pv.is_active) := by
    funext pv
    by_cases h : (pv.version_key == k) = true <;>
      simp [Function.comp, h, bumpStat_is_active]
  rw [hp]
  rfl

theorem activeCount_recalc (s : Store) (k : String) :
    activeCount (recalculate_prompt_success_rate s k) = activeCount s := by
  unfold recalculate_prompt_success_rate
  cases hq : getPV s k with
  | none => rfl
  | some q =>
    dsimp only
    by_cases ht : q.total_bids > 0
    · rw [if_pos ht, activeCount_mk, List.countP_map]
      have hp : ((fun pv : PromptVersion => pv.is_active) ∘
          (fun pv : PromptVersion => if pv.version_key == k
          then { pv with success_rate := min 1 (weightedScore q) } else pv)) =
          (fun pv : PromptVersion => pv.is_active) := by
        funext pv
        by_cases h : (pv.version_key == k) = true <;> simp [Function.comp, h]
      rw [hp]
      rfl
    · rw [if_neg ht]

theorem activeCount_mapBid (s : Store) (i : Nat) (f : Bid → Bid) :
    activeCount (mapBid s i f) = activeCount s := rfl

theorem activeCount_ite_inc (c : Prop) [Decidable c] (x : Store) (k : String)
    (st : StatName) :
    activeCount (if c then increment_prompt_stat x k st else x) = activeCount x := by
  by_cases hc : c
  · rw [if_pos hc, activeCount_inc]
  · rw [if_neg hc]

theorem countP_key_le_one (l : List PromptVersion)
    (hnd : (l.map (·.version_key)).Nodup) (k : String) :
    l.countP (fun pv => pv.version_key == k) ≤ 1 := by
  induction l with
  | nil => simp
  | cons a t ih =>
    simp only [List.map_cons, List.nodup_cons] at hnd
    rcases hnd with ⟨hna, hndt⟩
    by_cases ha : (a.version_key == k) = true
    · rw [List.countP_cons_of_pos (fun pv => pv.version_key == k) t ha]
      have hzero : t.countP (fun pv => pv.version_key == k) = 0 := by
        rw [List.countP_eq_zero]
        intro pv hpv hcon
        apply hna
        rw [beq_iff_eq.mp ha, ← beq_iff_eq.mp hcon]
        exact List.mem_map_of_mem _ hpv
      omega
    · rw [List.countP_cons_of_neg (fun pv => pv.version_key == k) t ha]
      exact ih hndt

theorem activeCount_setActive (s : Store) (k : String) (hnd : NodupKeys s) :
    activeCount (set_active_prompt_version s k) ≤ 1 := by
  unfold set_active_prompt_version
  dsimp only
  rw [activeCount_mk, List.countP_map, List.countP_map]
  have hp : (((fun pv : PromptVersion => pv.is_active) ∘
      (fun pv : PromptVersion =>
        if pv.version_key == k then { pv with is_active := true } else pv)) ∘
      (fun pv : PromptVersion => ({ pv with is_active := false } : PromptVersion))) =
      (fun pv : PromptVersion => pv.version_key == k) := by
    funext pv
    by_cases h : (pv.version_key == k) = true <;> simp [Function.comp, h]
  rw [hp]
  exact countP_key_le_one s.pvs hnd k

theorem activeCount_register_inactive (s : Store) (k n : String)
    (d : Option String) (ap : Bool) :
    activeCount (register_prompt_version s k n d false ap) ≤ activeCount s := by
  unfold register_prompt_version
  by_cases hex : (s.pvs.any fun pv => pv.version_key == k) = true
  · rw [if_pos hex, activeCount_mk, List.countP_map]
    apply List.countP_mono_left
    intro pv _ hact
    by_cases h : (pv.version_key == k) = true
    · simp [Function.comp, h] at hact
    · simpa [Function.comp, h] using hact
  · rw [if_neg hex, activeCount_mk, List.countP_append]
    simp [activeCount]

/-- An operation that never registers a prompt version with the active
flag already set. -/
def regInactive : Op → Bool
  | .register _ _ _ a _ => !a
  | _ => true

theorem active_applyOp (s : Store) (op : Op) (hnd : NodupKeys s)
    (h : activeCount s ≤ 1) (hop : regInactive op = true) :
    activeCount (applyOp s op) ≤ 1 := by
  cases op with
  | register k n d a ap =>
    have ha : a = false := by
      cases a
      · rfl
      · simp [regInactive] at hop
    subst ha
    exact Nat.le_trans (activeCount_register_inactive s k n d ap) h
  | setActive k => exact activeCount_setActive s k hnd
  | approve k =>
    show activeCount (approve_prompt_version s k) ≤ 1
    unfold approve_prompt_version
    rw [activeCount_mk, List.countP_map]
    have hp : ((fun pv : PromptVersion => pv.is_active) ∘
        (fun pv : PromptVersion =>
          if pv.version_key == k then { pv with is_approved := true } else pv)) =
        (fun pv : PromptVersion => pv.is_active) := by
      funext pv
      by_cases hkk : (pv.version_key == k) = true <;> simp [Function.comp, hkk]
    rw [hp]
    exact h
  | createBid t x pv pt =>
    show activeCount (save_bid s t x pv pt).1 ≤ 1
    unfold save_bid
    dsimp only
    rw [activeCount_inc]
    exact h
  | importBid t x pt src nn => exact h
  | outcome i o v e w hr nn =>
    show activeCount (update_bid_outcome s i o v e w hr nn).1 ≤ 1
    unfold update_bid_outcome
    cases hb : getBid s i with
    | none => exact h
    | some b =>
      dsimp only
      rw [activeCount_recalc, activeCount_ite_inc, activeCount_ite_inc,
        activeCount_ite_inc, activeCount_mapBid]
      exact h
  | rate i kind =>
    show activeCount (rate_bid s i kind).1 ≤ 1
    unfold rate_bid
    cases hv : RATING_VALUES kind with
    | none => exact h
    | some v =>
      dsimp only
      cases hb : getBid s i with
      | none => exact h
      | some b =>
        dsimp only
        by_cases hw : (kind == "winning") = true
        · rw [if_pos hw]
          dsimp only
          by_cases hww : b.was_won = true
          · rw [if_pos hww]
            exact h
          · rw [if_neg hww, activeCount_recalc, activeCount_inc, activeCount_mapBid]
            exact h
        · rw [if_neg hw]
          exact h
  | finalText i t f =>
    show activeCount (save_final_bid s i t f).1 ≤ 1
    unfold save_final_bid
    cases hb : getBid s i with
    | none => exact h
    | some b => exact h

theorem active_foldl (ops : List Op) (s : Store) (hnd : NodupKeys s)
    (h : activeCount s ≤ 1) (hops : ∀ op ∈ ops, regInactive op = true) :
    activeCount (ops.foldl applyOp s) ≤ 1 := by
  induction ops generalizing s with
  | nil => exact h
  | cons op rest ih =>
    exact ih (applyOp s op) (nodupKeys_applyOp s op hnd)
      (active_applyOp s op hnd h (hops op (List.mem_cons_self op rest)))
      (fun op2 hop2 => hops op2 (List.mem_cons_of_mem op hop2))

/-! ### Machinery for the reachable-ratings invariant -/

/-- The ratings a bid record can carry: one of the explicit absolute
values -5, 0, 5 (0 is also the never-rated default), or any value obtained
from one of those by repeatedly adding the +10 winning bonus. -/
inductive ReachableRating : Int → Prop
  | base (r : Int) : r = -5 ∨ r = 0 ∨ r = 5 → ReachableRating r
  | bonus (r : Int) : ReachableRating r → ReachableRating (r + 10)

/-- Every bid record in the store carries a reachable rating. -/
def RatingsOK (s : Store) : Prop :=
  ∀ p ∈ s.bids, ReachableRating p.2.rating

theorem ratingsOK_mapBid (s : Store) (i : Nat) (f : Bid → Bid)
    (hf : ∀ b, (f b).rating = b.rating ∨ ReachableRating (f b).rating)
    (h : RatingsOK s) : RatingsOK (mapBid s i f) := by
  intro p hp
  rcases List.mem_map.mp hp with ⟨p0, hp0, rfl⟩
  by_cases hid : (p0.1 == i) = true
  · rw [if_pos hid]
    rcases hf p0.2 with hkeep | hreach
    · simpa [hkeep] using h p0 hp0
    · exact hreach
  · rw [if_neg hid]
    exact h p0 hp0

theorem ratingsOK_pvs_only (s : Store) (pvs1 : List PromptVersion)
    (h : RatingsOK s) : RatingsOK { s with pvs := pvs1 } := h

theorem ratingsOK_inc (s : Store) (k : String) (st : StatName)
    (h : RatingsOK s) : RatingsOK (increment_prompt_stat s k st) := h

theorem ratingsOK_recalc (s : Store) (k : String) (h : RatingsOK s) :
    RatingsOK (recalculate_prompt_success_rate s k) := by
  intro p hp
  rw [bids_recalc] at hp
  exact h p hp

theorem ratingsOK_ite_inc (c : Prop) [Decidable c] (x : Store) (k : String)
    (st : StatName) (h : RatingsOK x) :
    RatingsOK (if c then increment_prompt_stat x k st else x) := by
  by_cases hc : c
  · rw [if_pos hc]
    exact h
  · rw [if_neg hc]
    exact h

/-- The three absolute rating kinds carry one of the base values. -/
theorem rating_values_absolute (kind : String) (v : Int)
    (hv : RATING_VALUES kind = some v) (hw : (kind == "winning") = false) :
    v = -5 ∨ v = 0 ∨ v = 5 := by
  unfold RATING_VALUES at hv
  by_cases h1 : (kind == "bad") = true
  · rw [if_pos h1] at hv
    injection hv with hv
    exact Or.inl hv.symm
  · rw [if_neg h1] at hv
    by_cases h2 : (kind == "regular") = true
    · rw [if_pos h2] at hv
      injection hv with hv
      exact Or.inr (Or.inl hv.symm)
    · rw [if_neg h2] at hv
      by_cases h3 : (kind == "good") = true
      · rw [if_pos h3] at hv
        injection hv with hv
        exact Or.inr (Or.inr hv.symm)
      · rw [if_neg h3, hw] at hv
        simp at hv

/-- Every ledger operation preserves rating reachability. -/
theorem ratingsOK_applyOp (s : Store) (op : Op) (h : RatingsOK s) :
    RatingsOK (applyOp s op) := by
  cases op with
  | register k n d a ap =>
    show RatingsOK (register_prompt_version s k n d a ap)
    unfold register_prompt_version
    by_cases hex : (s.pvs.any fun pv => pv.version_key == k) = true
    · rw [if_pos hex]
      exact h
    · rw [if_neg hex]
      exact h
  | setActive k => exact h
  | approve k => exact h
  | createBid t x pv pt =>
    show RatingsOK (save_bid s t x pv pt).1
    unfold save_bid
    dsimp only
    apply ratingsOK_inc
    intro p hp
    rcases List.mem_append.mp hp with hcase | hcase
    · exact h p hcase
    · simp only [List.mem_singleton] at hcase
      rw [hcase]
      exact ReachableRating.base 0 (Or.inr (Or.inl rfl))
  | importBid t x pt src nn =>
    show RatingsOK (save_uploaded_bid s t x pt src nn).1
    unfold save_uploaded_bid
    dsimp only
    intro p hp
    rcases List.mem_append.mp hp with hcase | hcase
    · exact h p hcase
    · simp only [List.mem_singleton] at hcase
      rw [hcase]
      by_cases hsrc : (src == "other_freelancer") = true
      · simp only [hsrc, if_pos]
        have h20 : ((0 : Int) + 10) + 10 = 20 := by decide
        exact h20 ▸ ReachableRating.bonus _ (ReachableRating.bonus 0
          (ReachableRating.base 0 (Or.inr (Or.inl rfl))))
      · simp only [hsrc]
        have h15 : ((5 : Int) + 10) = 15 := by decide
        have : ReachableRating 15 :=
          h15 ▸ ReachableRating.bonus 5 (ReachableRating.base 5 (Or.inr (Or.inr rfl)))
        simpa [hsrc] using this
  | outcome i o v e w hr nn =>
    show RatingsOK (update_bid_outcome s i o v e w hr nn).1
    unfold update_bid_outcome
    cases hb : getBid s i with
    | none => exact h
    | some b =>
      dsimp only
      apply ratingsOK_recalc
      apply ratingsOK_ite_inc _ _ _ _ (ratingsOK_ite_inc _ _ _ _
        (ratingsOK_ite_inc _ _ _ _ ?_))
      exact ratingsOK_mapBid s i _ (fun bb => Or.inl rfl) h
  | rate i kind =>
    show RatingsOK (rate_bid s i kind).1
    unfold rate_bid
    cases hv : RATING_VALUES kind with
    | none => exact h
    | some v =>
      dsimp only
      cases hb : getBid s i with
      | none => exact h
      | some b =>
        dsimp only
        have hbmem : ReachableRating b.rating := by
          unfold getBid at hb
          cases hfind : s.bids.find? (fun p => p.1 == i) with
          | none => rw [hfind] at hb; simp at hb
          | some p =>
            rw [hfind] at hb
            simp only [Option.map_some', Option.some.injEq] at hb
            rw [← hb]
            exact h p (List.mem_of_find?_eq_some hfind)
        by_cases hw : (kind == "winning") = true
        · rw [if_pos hw]
          dsimp only
          by_cases hww : b.was_won = true
          · rw [if_pos hww]
            exact ratingsOK_mapBid s i _
              (fun bb => Or.inr (ReachableRating.bonus b.rating hbmem)) h
          · rw [if_neg hww]
            apply ratingsOK_recalc
            apply ratingsOK_inc
            exact ratingsOK_mapBid s i _
              (fun bb => Or.inr (ReachableRating.bonus b.rating hbmem)) h
        · rw [if_neg hw]
          exact ratingsOK_mapBid s i _
            (fun bb => Or.inr (ReachableRating.base v (rating_values_absolute kind v hv
              (by simpa using hw)))) h
  | finalText i t f =>
    show RatingsOK (save_final_bid s i t f).1
    unfold save_final_bid
    cases hb : getBid s i with
    | none => exact h
    | some b =>
      dsimp only
      exact ratingsOK_mapBid s i _ (fun bb => Or.inl rfl) h

theorem ratingsOK_emptyStore : RatingsOK emptyStore := by
  intro p hp
  exact absurd hp (List.not_mem_nil p)

theorem ratingsOK_foldl (ops : List Op) (s : Store) (h : RatingsOK s) :
    RatingsOK (ops.foldl applyOp s) := by
  induction ops generalizing s with
  | nil => exact h
  | cons op rest ih => exact ih (applyOp s op) (ratingsOK_applyOp s op h)

/-! ### Sample data for the witnesses -/

/-- A sample bid used by several witnesses. -/
def demoBid : Bid :=
  { project_title := "T", bid_text := "hello", prompt_version := "p" }

/-- A sample one-bid, one-prompt-version store used by several witnesses. -/
def demoStore : Store :=
  { bids := [(1, demoBid)], nextId := 2,
    pvs := [{ version_key := "p", name := "P", total_bids := 1 }] }

/-! ### The claims -/

/-- Claim C7: for every bid id and every rating kind outside
bad/regular/good/winning, `rate_bid` returns the invalid result (`none`)
and leaves the entire store unchanged. -/
theorem rate_bid_unknown_kind_rejected (s : Store) (bid_id : Nat) (kind : String)
    (h1 : kind ≠ "bad") (h2 : kind ≠ "regular") (h3 : kind ≠ "good")
    (h4 : kind ≠ "winning") :
    rate_bid s bid_id kind = (s, none) := by
  unfold rate_bid RATING_VALUES
  simp [h1, h2, h3, h4]

/-- Witness for C7 at the rating kind "excellent" on the sample store. -/
theorem rate_bid_unknown_kind_rejected_witness :
    rate_bid demoStore 1 "excellent" = (demoStore, none) :=
  rate_bid_unknown_kind_rejected demoStore 1 "excellent"
    (by decide) (by decide) (by decide) (by decide)

/-- Claim C6: `save_final_bid` returns false exactly when the id does not
exist; on an existing record it stores the final text, stores a diff
(original, final) only when the text changed (none otherwise), and stores
the feedback note as supplied. -/
theorem save_final_bid_spec (s : Store) (bid_id : Nat) (final_text : String)
    (feedback : Option String) :
    ((save_final_bid s bid_id final_text feedback).2 = false ↔ getBid s bid_id = none) ∧
    (∀ b, getBid s bid_id = some b →
      (save_final_bid s bid_id final_text feedback).2 = true ∧
      getBid (save_final_bid s bid_id final_text feedback).1 bid_id =
        some { b with final_bid_text := some final_text,
                      user_edits := if b.bid_text == final_text then none
                        else some { original := b.bid_text, final := final_text },
                      feedback_notes := feedback }) := by
  unfold save_final_bid
  cases hb : getBid s bid_id with
  | none =>
    constructor
    · simp
    · intro b hb'
      exact absurd hb' (by simp)
  | some row =>
    dsimp only
    constructor
    · simp [hb]
    · intro b hb'
      injection hb' with hrb
      subst hrb
      exact ⟨rfl, getBid_mapBid_self s bid_id _ row hb⟩

/-- Witness for C6: on the sample store, saving the unchanged text
succeeds and leaves the diff field absent. -/
theorem save_final_bid_spec_witness :
    (save_final_bid demoStore 1 "hello" (some "fine")).2 = true ∧
    getBid (save_final_bid demoStore 1 "hello" (some "fine")).1 1 =
      some { demoBid with final_bid_text := some "hello",
                          user_edits := none,
                          feedback_notes := some "fine" } := by
  have h := (save_final_bid_spec demoStore 1 "hello" (some "fine")).2 demoBid (by decide)
  exact ⟨h.1, by rw [h.2]; decide⟩

/-- Claim C8: `save_bid` persists the record with the funnel flags false,
high-rank false, rating 0 and outcome "pending", increments the referenced
prompt version's total counter by one when that prompt version exists, and
when it does not exist the counter update silently no-ops: the
prompt-version table is left exactly as it was and the bid is still
persisted. -/
theorem save_bid_spec (s : Store) (title text pv : String) (ptype : Option String)
    (hfresh : ∀ p ∈ s.bids, p.1 ≠ s.nextId) :
    (save_bid s title text pv ptype).2 = s.nextId ∧
    getBid (save_bid s title text pv ptype).1 s.nextId =
      some { project_title := title, project_type := ptype, bid_text := text,
             prompt_version := pv, outcome := "pending", outcome_notes := none,
             was_viewed := false, was_engaged := false, was_won := false,
             was_high_rank := false, user_edits := none, final_bid_text := none,
             feedback_notes := none, rating := 0, is_uploaded := false,
             upload_source := none, upload_notes := none } ∧
    totalOf (save_bid s title text pv ptype).1 pv =
      totalOf s pv + (if (getPV s pv).isSome then 1 else 0) ∧
    (getPV s pv = none → (save_bid s title text pv ptype).1.pvs = s.pvs) := by
  unfold save_bid
  dsimp only
  refine ⟨rfl, ?_, ?_, ?_⟩
  · rw [getBid_inc]
    rw [getBid_mk]
    rw [getBid_append_fresh s s.nextId _ hfresh]
    rfl
  · have hpv1 : getPV { s with bids := s.bids ++ [(s.nextId,
        { project_title := title, project_type := ptype, bid_text := text,
          prompt_version := pv : Bid })], nextId := s.nextId + 1 } pv = getPV s pv := rfl
    cases hq : getPV s pv with
    | none =>
      unfold totalOf
      rw [getPV_inc, hpv1, hq]
      simp
    | some q =>
      unfold totalOf
      rw [getPV_inc_self _ pv .total_bids q (by rw [hpv1, hq]), hq]
      simp [bumpStat]
  · intro hq
    have hnone : ∀ row ∈ s.pvs, row.version_key ≠ pv := by
      unfold getPV at hq
      rw [List.find?_eq_none] at hq
      intro row hrow
      simpa using hq row hrow
    have := inc_of_missing { s with bids := s.bids ++ [(s.nextId,
        { project_title := title, project_type := ptype, bid_text := text,
          prompt_version := pv : Bid })], nextId := s.nextId + 1 } pv .total_bids hnone
    rw [this]

/-- Witness for C8: creating a bid on the sample store (whose prompt
version "p" exists) and on a store without the prompt version "q". -/
theorem save_bid_spec_witness :
    (save_bid demoStore "T2" "text2" "p" none).2 = 2 ∧
    totalOf (save_bid demoStore "T2" "text2" "p" none).1 "p" = 2 ∧
    (save_bid demoStore "T2" "text2" "q" none).1.pvs = demoStore.pvs := by
  have h1 := save_bid_spec demoStore "T2" "text2" "p" none (by decide)
  have h2 := save_bid_spec demoStore "T2" "text2" "q" none (by decide)
  refine ⟨h1.1, ?_, h2.2.2.2 (by decide)⟩
  rw [h1.2.2.1]
  decide

/-- Claim C10: `save_uploaded_bid` inserts the record with prompt-version
key "uploaded", outcome "won", won flag true, rating 20 for provenance
"other_freelancer" and 15 otherwise, and leaves the whole prompt-version
table unchanged (no counter increment, no success-rate recomputation). -/
theorem save_uploaded_bid_spec (s : Store) (title text ptype src : String)
    (notes : Option String) (hfresh : ∀ p ∈ s.bids, p.1 ≠ s.nextId) :
    (save_uploaded_bid s title text ptype src notes).1.pvs = s.pvs ∧
    (save_uploaded_bid s title text ptype src notes).2 = s.nextId ∧
    getBid (save_uploaded_bid s title text ptype src notes).1 s.nextId =
      some { project_title := title, project_type := some ptype, bid_text := text,
             prompt_version := "uploaded", outcome := "won", outcome_notes := none,
             was_viewed := false, was_engaged := false, was_won := true,
             was_high_rank := false, user_edits := none, final_bid_text := none,
             feedback_notes := none,
             rating := if src == "other_freelancer" then 20 else 15,
             is_uploaded := true, upload_source := some src,
             upload_notes := notes } := by
  unfold save_uploaded_bid
  refine ⟨rfl, rfl, ?_⟩
  rw [getBid_mk]
  rw [getBid_append_fresh s s.nextId _ hfresh]
  rfl

/-- Witness for C10: an import from "other_freelancer" gets rating 20 and
the prompt-version table of the sample store is untouched. -/
theorem save_uploaded_bid_spec_witness :
    (save_uploaded_bid demoStore "U" "utext" "web" "other_freelancer" none).1.pvs =
      demoStore.pvs ∧
    getBid (save_uploaded_bid demoStore "U" "utext" "web" "other_freelancer" none).1 2 =
      some { project_title := "U", project_type := some "web", bid_text := "utext",
             prompt_version := "uploaded", outcome := "won", was_won := true,
             rating := 20, is_uploaded := true,
             upload_source := some "other_freelancer" } := by
  have h := save_uploaded_bid_spec demoStore "U" "utext" "web" "other_freelancer"
    none (by decide)
  exact ⟨h.1, h.2.2.trans (by decide)⟩

/-- The rating stored on a bid record (0 when the id is missing). -/
def ratingOf (s : Store) (i : Nat) : Int :=
  ((getBid s i).map (·.rating)).getD 0

/-- Claim C2: on an existing bid whose prompt version exists, each funnel
counter is incremented by an outcome update exactly when the new flag is
true and the record's previous flag was false; applying the update with
won=true twice in a row increments the won counter exactly once; and no
counter of any prompt version is ever decremented by an outcome update. -/
theorem update_bid_outcome_ratchet (s : Store) (i : Nat) (b : Bid)
    (hb : getBid s i = some b) (hpv : (getPV s b.prompt_version).isSome = true)
    (o1 : String) (v1 e1 w1 r1 : Bool) (n1 : Option String)
    (o2 : String) (v2 e2 r2 : Bool) (n2 : Option String) :
    (wonOf (update_bid_outcome s i o1 v1 e1 w1 r1 n1).1 b.prompt_version =
        wonOf s b.prompt_version + (if (w1 && !b.was_won) = true then 1 else 0)) ∧
    (viewedOf (update_bid_outcome s i o1 v1 e1 w1 r1 n1).1 b.prompt_version =
        viewedOf s b.prompt_version + (if (v1 && !b.was_viewed) = true then 1 else 0)) ∧
    (engagedOf (update_bid_outcome s i o1 v1 e1 w1 r1 n1).1 b.prompt_version =
        engagedOf s b.prompt_version + (if (e1 && !b.was_engaged) = true then 1 else 0)) ∧
    (wonOf (update_bid_outcome (update_bid_outcome s i o1 v1 e1 true r1 n1).1
          i o2 v2 e2 true r2 n2).1 b.prompt_version =
        wonOf s b.prompt_version + (if b.was_won then 0 else 1)) ∧
    (∀ k st, statOf s st k ≤ statOf (update_bid_outcome s i o1 v1 e1 w1 r1 n1).1 st k) := by
  refine ⟨?_, ?_, ?_, ?_, ?_⟩
  · rw [wonOf_eq_statOf, wonOf_eq_statOf,
      statOf_update s i o1 v1 e1 w1 r1 n1 b hb .won_bids]
    simp [statTransition, hpv]
  · rw [viewedOf_eq_statOf, viewedOf_eq_statOf,
      statOf_update s i o1 v1 e1 w1 r1 n1 b hb .viewed_bids]
    simp [statTransition, hpv]
  · rw [engagedOf_eq_statOf, engagedOf_eq_statOf,
      statOf_update s i o1 v1 e1 w1 r1 n1 b hb .engaged_bids]
    simp [statTransition, hpv]
  · have hb1 := getBid_update_self s i o1 v1 e1 true r1 n1 b hb
    have h2 := statOf_update (update_bid_outcome s i o1 v1 e1 true r1 n1).1
      i o2 v2 e2 true r2 n2 _ hb1 .won_bids
    have h1 := statOf_update s i o1 v1 e1 true r1 n1 b hb .won_bids
    rw [wonOf_eq_statOf, wonOf_eq_statOf]
    simp only [statTransition] at h1 h2
    rw [h2, h1]
    simp [hpv, isSome_getPV_update]
    cases hw : b.was_won <;> simp [hw]
  · intro k st
    exact statOf_update_mono s i o1 v1 e1 w1 r1 n1 k st

/-- Witness for C2 on the sample store: two consecutive won-updates add
exactly one to the won counter. -/
theorem update_bid_outcome_ratchet_witness :
    getBid demoStore 1 = some demoBid ∧
    wonOf (update_bid_outcome (update_bid_outcome demoStore 1 "won" false false
        true false none).1 1 "won" false false true false none).1
      demoBid.prompt_version = wonOf demoStore demoBid.prompt_version + 1 := by
  have h := update_bid_outcome_ratchet demoStore 1 demoBid (by decide) (by decide)
    "won" false false true false none "won" false false false none
  exact ⟨by decide, h.2.2.2.1.trans (by decide)⟩

theorem rate_bid_winning_reduce (s : Store) (i : Nat) (b : Bid)
    (hb : getBid s i = some b) :
    rate_bid s i "winning" =
      (if b.was_won = true
        then mapBid s i (fun bb => { bb with rating := b.rating + 10, was_won := true })
        else recalculate_prompt_success_rate
          (increment_prompt_stat
            (mapBid s i (fun bb => { bb with rating := b.rating + 10, was_won := true }))
            b.prompt_version .won_bids) b.prompt_version,
       some (b.rating + 10)) := by
  unfold rate_bid
  rw [show RATING_VALUES "winning" = some 10 from rfl]
  dsimp only
  rw [hb]
  dsimp only
  have hwin : (("winning" : String) == "winning") = true := by decide
  rw [if_pos hwin]

/-- Claim C3: rating an existing bid "winning" adds 10 to its rating
(rather than replacing it), forces the won flag, increments the owning
prompt version's won counter only when the record was not already won (and
then recomputes the success rate); a second application adds another 10
but leaves the won counter alone. -/
theorem rate_bid_winning_spec (s : Store) (i : Nat) (b : Bid)
    (hb : getBid s i = some b) (q : PromptVersion)
    (hq : getPV s b.prompt_version = some q) :
    (rate_bid s i "winning").2 = some (b.rating + 10) ∧
    getBid (rate_bid s i "winning").1 i =
      some { b with rating := b.rating + 10, was_won := true } ∧
    wonOf (rate_bid s i "winning").1 b.prompt_version =
      q.won_bids + (if b.was_won then 0 else 1) ∧
    (b.was_won = false → 0 < q.total_bids →
      srOf (rate_bid s i "winning").1 b.prompt_version =
        min 1 (weightedScore { q with won_bids := q.won_bids + 1 })) ∧
    (rate_bid (rate_bid s i "winning").1 i "winning").2 =
      some (b.rating + 10 + 10) ∧
    getBid (rate_bid (rate_bid s i "winning").1 i "winning").1 i =
      some { b with rating := b.rating + 10 + 10, was_won := true } ∧
    wonOf (rate_bid (rate_bid s i "winning").1 i "winning").1 b.prompt_version =
      wonOf (rate_bid s i "winning").1 b.prompt_version := by
  have hred := rate_bid_winning_reduce s i b hb
  have hq1 : getPV (mapBid s i (fun bb =>
      { bb with rating := b.rating + 10, was_won := true })) b.prompt_version = some q := hq
  have hbid1 : getBid (rate_bid s i "winning").1 i =
      some { b with rating := b.rating + 10, was_won := true } := by
    rw [hred]
    by_cases hw : b.was_won = true
    · rw [if_pos hw]
      exact getBid_mapBid_self s i _ b hb
    · rw [if_neg hw]
      dsimp only
      rw [getBid_recalc, getBid_inc]
      exact getBid_mapBid_self s i _ b hb
  have hwon1 : wonOf (rate_bid s i "winning").1 b.prompt_version =
      q.won_bids + (if b.was_won then 0 else 1) := by
    rw [hred]
    by_cases hw : b.was_won = true
    · rw [if_pos hw]
      dsimp only
      unfold wonOf
      rw [getPV_mapBid, hq]
      simp [hw]
    · rw [if_neg hw]
      dsimp only
      rw [wonOf_eq_statOf, statOf_recalc, ← wonOf_eq_statOf]
      unfold wonOf
      rw [getPV_inc_self _ b.prompt_version .won_bids q hq1]
      have hwf : b.was_won = false := by
        cases hcase : b.was_won
        · rfl
        · exact absurd hcase hw
      simp [bumpStat, hwf]
  have hred2 := rate_bid_winning_reduce (rate_bid s i "winning").1 i _ hbid1
  refine ⟨by rw [hred], hbid1, hwon1, ?_, ?_, ?_, ?_⟩
  · intro hwf ht
    rw [hred, if_neg (by simp [hwf])]
    dsimp only
    unfold srOf
    rw [getPV_recalc_self _ b.prompt_version _
      (getPV_inc_self _ b.prompt_version .won_bids q hq1) (by simpa [bumpStat] using ht)]
    rfl
  · rw [hred2]
  · rw [hred2, if_pos rfl]
    exact getBid_mapBid_self (rate_bid s i "winning").1 i _
      { b with rating := b.rating + 10, was_won := true } hbid1
  · rw [hred2, if_pos rfl]
    dsimp only
    rw [wonOf_eq_statOf, statOf_mapBid, ← wonOf_eq_statOf]

/-- Witness for C3 on the sample store: the first "winning" rating lifts
the rating to 10 and the won counter to 1; the second lifts the rating to
20 and leaves the won counter at 1. -/
theorem rate_bid_winning_spec_witness :
    (rate_bid demoStore 1 "winning").2 = some 10 ∧
    wonOf (rate_bid demoStore 1 "winning").1 demoBid.prompt_version = 1 ∧
    (rate_bid (rate_bid demoStore 1 "winning").1 1 "winning").2 = some 20 ∧
    wonOf (rate_bid (rate_bid demoStore 1 "winning").1 1 "winning").1
      demoBid.prompt_version = 1 := by
  have h := rate_bid_winning_spec demoStore 1 demoBid (by decide)
    { version_key := "p", name := "P", total_bids := 1 } (by decide)
  refine ⟨h.1.trans (by decide), h.2.2.1.trans (by decide),
    h.2.2.2.2.1.trans (by decide), ?_⟩
  rw [h.2.2.2.2.2.2]
  exact h.2.2.1.trans (by decide)

/-- Claim C1: recomputing the success rate of a prompt version with total
t > 0 sets it to min(1, (3*won + 2*engaged + viewed)/(3*t)); with t = 0 the
recomputation writes nothing at all, and in every reachable store a
prompt version with t = 0 still carries its default success rate 0.0. -/
theorem success_rate_recompute (s : Store) (key : String) (q : PromptVersion)
    (hq : getPV s key = some q) :
    (0 < q.total_bids →
      getPV (recalculate_prompt_success_rate s key) key =
        some { q with success_rate := min 1
                        ((q.won_bids * 3 + q.engaged_bids * 2 + q.viewed_bids : ℚ) /
                          (q.total_bids * 3 : ℚ)) }) ∧
    (q.total_bids = 0 → recalculate_prompt_success_rate s key = s) ∧
    (∀ ops, s = runOps ops → q.total_bids = 0 → q.success_rate = 0) := by
  refine ⟨?_, ?_, ?_⟩
  · intro ht
    exact getPV_recalc_self s key q hq ht
  · intro h0
    exact recalc_of_zero_total s key q hq h0
  · intro ops hs h0
    have hmem : q ∈ s.pvs := List.mem_of_find?_eq_some hq
    rw [hs] at hmem
    exact zeroRate_runOps ops q hmem h0

/-- Witness for C1 on the sample store (total 1, all other counters 0):
the recomputed rate is min(1, 0/3) = 0. -/
theorem success_rate_recompute_witness :
    getPV (recalculate_prompt_success_rate demoStore "p") "p" =
      some { version_key := "p", name := "P", total_bids := 1, success_rate := 0 } := by
  have h := (success_rate_recompute demoStore "p"
    { version_key := "p", name := "P", total_bids := 1 } (by decide)).1 (by decide)
  refine h.trans ?_
  simp only [Option.some.injEq]
  norm_num

/-- Counterexample for C4: registering two prompt versions with the active
flag set leaves two records active at once, so "at most one active after
any sequence of ledger operations" fails as stated. -/
theorem register_active_twice_two_active :
    activeCount (runOps [Op.register "A" "A" none true false,
      Op.register "B" "B" none true false]) = 2 := by decide

/-- Claim C4 (amended): after any sequence of ledger operations in which
registration never passes an already-set active flag, at most one prompt
version is active; setting "A" active and then "B" active leaves exactly
one active record (B). -/
theorem at_most_one_active (ops : List Op)
    (h : ∀ op ∈ ops, regInactive op = true) :
    activeCount (runOps ops) ≤ 1 :=
  active_foldl ops emptyStore nodupKeys_emptyStore (by decide) h

/-- Witness for C4: register "A" and "B" inactive, set "A" active, then
set "B" active; exactly one record is active, namely "B". -/
theorem at_most_one_active_witness :
    activeCount (runOps [Op.register "A" "A" none false false,
      Op.register "B" "B" none false false,
      Op.setActive "A", Op.setActive "B"]) ≤ 1 ∧
    activeCount (runOps [Op.register "A" "A" none false false,
      Op.register "B" "B" none false false,
      Op.setActive "A", Op.setActive "B"]) = 1 ∧
    (getPV (runOps [Op.register "A" "A" none false false,
      Op.register "B" "B" none false false,
      Op.setActive "A", Op.setActive "B"]) "B").map (·.is_active) = some true ∧
    (getPV (runOps [Op.register "A" "A" none false false,
      Op.register "B" "B" none false false,
      Op.setActive "A", Op.setActive "B"]) "A").map (·.is_active) = some false :=
  ⟨at_most_one_active _ (by decide), by decide, by decide, by decide⟩

/-- Claim C9: every bid record reachable by any sequence of ledger
operations carries a rating that is 0, one of the absolute values -5, 0, 5,
or obtained from one of those by repeatedly adding 10. -/
theorem ratings_reachable (ops : List Op) (p : Nat × Bid)
    (hp : p ∈ (runOps ops).bids) : ReachableRating p.2.rating :=
  ratingsOK_foldl ops emptyStore ratingsOK_emptyStore p hp

/-- Witness for C9 on a one-operation history. -/
theorem ratings_reachable_witness :
    ReachableRating (((1 : Nat),
      ({ project_title := "T", project_type := none, bid_text := "x",
         prompt_version := "q" } : Bid)) : Nat × Bid).2.rating :=
  ratings_reachable [Op.createBid "T" "x" "q" none] _ (by decide)

/-- The operation history behind the spec's {0, 0, 5, -5, 10} example:
five bids, then ratings good (+5), bad (-5) and winning (+10). -/
def c5ops : List Op :=
  [Op.createBid "t1" "x" "nope" none, Op.createBid "t2" "x" "nope" none,
   Op.createBid "t3" "x" "nope" none, Op.createBid "t4" "x" "nope" none,
   Op.createBid "t5" "x" "nope" none,
   Op.rate 3 "good", Op.rate 4 "bad", Op.rate 5 "winning"]

theorem c5ops_avg_value :
    (get_learning_stats (runOps c5ops)).avg_rating = 33/10 := by
  have hrfl : (get_learning_stats (runOps c5ops)).avg_rating =
      roundTo1 (ratAvg (nonzeroRatings (runOps c5ops))) := rfl
  have hnz : nonzeroRatings (runOps c5ops) = [5, -5, 10] := by decide
  have havg : ratAvg [5, -5, 10] = 10/3 := by
    unfold ratAvg
    simp only [List.sum_cons, List.sum_nil, List.length_cons, List.length_nil]
    norm_num
  rw [hrfl, hnz, havg]
  unfold roundTo1 pyRound
  norm_num
  rw [round_eq]
  norm_num

/-- Counterexample for C5: for the ratings {0, 0, 5, -5, 10} the reported
mean rating is 3.3 (the mean 10/3 rounded to one decimal), not 3.33 and
not the exact 10/3. -/
theorem learning_stats_avg_not_333 :
    (get_learning_stats (runOps c5ops)).avg_rating ≠ 333/100 ∧
    (get_learning_stats (runOps c5ops)).avg_rating ≠ 10/3 := by
  rw [c5ops_avg_value]
  constructor
  · norm_num
  · norm_num

theorem nonzeroRatings_dropZero (s : Store) :
    nonzeroRatings { s with bids := s.bids.filter (fun p => p.2.rating != 0) } =
      nonzeroRatings s := by
  unfold nonzeroRatings
  dsimp only
  rw [List.map_map, List.map_map, List.filter_map, List.filter_map]
  congr 1
  rw [List.filter_filter]
  apply List.filter_congr
  intro p _
  simp [Function.comp]

/-- Claim C5 (amended): the reported mean rating is the mean over records
with nonzero rating only, rounded to one decimal place; for ratings
{0, 0, 5, -5, 10} it is 3.3 — the rounding of (5 - 5 + 10)/3 = 10/3 — and
removing the zero-rated records does not change it. -/
theorem learning_stats_avg_rating :
    (get_learning_stats (runOps c5ops)).avg_rating = 33/10 ∧
    (∀ s : Store, (get_learning_stats
        { s with bids := s.bids.filter (fun p => p.2.rating != 0) }).avg_rating =
      (get_learning_stats s).avg_rating) := by
  refine ⟨c5ops_avg_value, ?_⟩
  intro s
  have h1 : (get_learning_stats
      { s with bids := s.bids.filter (fun p => p.2.rating != 0) }).avg_rating =
      roundTo1 (ratAvg (nonzeroRatings
        { s with bids := s.bids.filter (fun p => p.2.rating != 0) })) := rfl
  have h2 : (get_learning_stats s).avg_rating =
      roundTo1 (ratAvg (nonzeroRatings s)) := rfl
  rw [h1, h2, nonzeroRatings_dropZero]

end BidHistory
